import Mathlib

/-!
Verification of the cellular-automaton core of cell2d.py.

The grid is a toroidal W×H array of binary cells. Cell values are modelled
as natural numbers (the source stores them as uint8); wherever the source
arithmetic can wrap at a machine width, the embedding applies the explicit
modulus. Floating-point metric values are modelled with exact rationals
(and reals for the logarithm in entropy), since every quantity the claims
mention is exactly representable.
-/

namespace Cell2d

/-- REG_N = 0 (source line 29): bit position of the N-labelled aggregate. -/
def REG_N : ℕ := 0

/-- REG_E = 1 (source line 30). -/
def REG_E : ℕ := 1

/-- REG_S = 2 (source line 31). -/
def REG_S : ℕ := 2

/-- REG_W = 3 (source line 32). -/
def REG_W : ℕ := 3

/-- REG_C = 4 (source line 33). -/
def REG_C : ℕ := 4

/-- Kernel N (source lines 36-39). -/
def N : Matrix (Fin 3) (Fin 3) ℕ := !![0,1,0; 0,0,0; 0,0,0]

/-- Kernel E (source lines 40-43). -/
def E : Matrix (Fin 3) (Fin 3) ℕ := !![0,0,0; 0,0,1; 0,0,0]

/-- Kernel W (source lines 44-47). -/
def W : Matrix (Fin 3) (Fin 3) ℕ := !![0,0,0; 1,0,0; 0,0,0]

/-- Kernel S (source lines 48-51). -/
def S : Matrix (Fin 3) (Fin 3) ℕ := !![0,0,0; 0,0,0; 0,1,0]

/-- Embedding of scipy.signal.convolve2d(g, K, mode = same, boundary = wrap)
for a 3×3 kernel K on an H×Wd grid g.  convolve2d computes true convolution,
so the kernel is flipped: output cell (r,c) receives
sum over (i,j) of K i j * g ((r + 1 - i) mod H) ((c + 1 - j) mod Wd),
with periodic (wraparound) index arithmetic.  Adding H (resp. Wd) before the
subtraction keeps the index arithmetic inside ℕ without changing the residue. -/
def conv3 (H Wd : ℕ) (K : Matrix (Fin 3) (Fin 3) ℕ) (g : ℕ → ℕ → ℕ)
    (r c : ℕ) : ℕ :=
  ∑ i : Fin 3, ∑ j : Fin 3,
    K i j * g ((r + H + 1 - (i : ℕ)) % H) ((c + Wd + 1 - (j : ℕ)) % Wd)

/-- State of Field (source lines 53-60): dimensions, rule and the two
cell snapshots _cells / _prev_cells, indexed as (row, col). -/
structure Field where
  width : ℕ
  height : ℕ
  rule : ℕ
  cells : ℕ → ℕ → ℕ
  prev_cells : ℕ → ℕ → ℕ

/-- Successful construction (source lines 54-60): both snapshots all-zero. -/
def mkField (width height rule : ℕ) : Field :=
  ⟨width, height, rule, fun _ _ => 0, fun _ _ => 0⟩

/-- Field.__init__ (source lines 54-60).  The constructor itself performs no
validation; it allocates two zero arrays with cupy.zeros((height, width)),
which raises ValueError for a negative dimension and succeeds (with an empty
array) for zero dimensions.  The failure case is modelled as none. -/
def Field.init (width height : ℤ) (rule : ℕ) : Option Field :=
  if width < 0 ∨ height < 0 then none
  else some (mkField width.toNat height.toNat rule)

/-- Field.init_random (source lines 61-63): overwrites cells with draws from
\x7b0,1\x7d and leaves prev_cells untouched.  The random source is modelled as an
explicitly passed function; % 2 records that randint(2) yields only 0 or 1. -/
def Field.init_random (f : Field) (draw : ℕ → ℕ → ℕ) : Field :=
  { f with cells := fun r c => draw r c % 2 }

/-- Field.mask (source lines 64-68): multiply cells elementwise with the 0/1
matrix m that is 1 exactly on rows [H//3, H*2//3) and cols [W//3, W*2//3). -/
def Field.mask (f : Field) : Field :=
  { f with
    cells := fun r c =>
      f.cells r c *
        (if f.height / 3 ≤ r ∧ r < f.height * 2 / 3 ∧
            f.width / 3 ≤ c ∧ c < f.width * 2 / 3 then 1 else 0) }

/-- Field.update_cells (source lines 100-121).  prev_cells becomes the
pre-step cells; the index r accumulates (cells << REG_C) plus the four
convolution aggregates shifted by their REG constants, in uint16 (hence the
% 2^16, applied once, which equals applying it after every uint16 operation);
s = uint32 1 << r (hence % 2^32; for binary grids r ≤ 31 so no wrap occurs);
the new cell is 1 where s & rule is nonzero, else 0.  Every read is from the
pre-step snapshot f.cells, so the update is synchronous. -/
def Field.update_cells (f : Field) : Field :=
  { f with
    prev_cells := f.cells,
    cells := fun row col =>
      let r : ℕ :=
        ((f.cells row col <<< REG_C)
          + (conv3 f.height f.width N f.cells row col <<< REG_N)
          + (conv3 f.height f.width E f.cells row col <<< REG_E)
          + (conv3 f.height f.width W f.cells row col <<< REG_W)
          + (conv3 f.height f.width S f.cells row col <<< REG_S)) % 2 ^ 16
      let s : ℕ := (1 <<< r) % 2 ^ 32
      if s &&& f.rule ≠ 0 then 1 else 0 }

/-- All-ones 3×3 kernel used by Field.entropy (source lines 123-126). -/
def entropyMask : Matrix (Fin 3) (Fin 3) ℕ := !![1,1,1; 1,1,1; 1,1,1]

/-- Fraction p_one of Field.entropy (source lines 127-130): the fraction of
cells whose 3×3 wraparound neighbourhood sum (taken in uint8, hence % 256)
is nonzero. -/
def Field.p_one (f : Field) : ℚ :=
  ((∑ r ∈ Finset.range f.height, ∑ c ∈ Finset.range f.width,
      if conv3 f.height f.width entropyMask f.cells r c % 256 ≠ 0
      then (1 : ℕ) else 0 : ℕ) : ℚ) / (f.height * f.width)

/-- Field.entropy (source lines 122-135).  math.log raises ValueError on a
zero argument and the bare except returns 0.0; for the p_one actually
computed (a value in [0,1]) that happens exactly when p_one = 0 or
p_zero = 1 - p_one = 0, which the embedding models as the if branch. -/
noncomputable def Field.entropy (f : Field) : ℝ :=
  let p_one : ℚ := f.p_one
  let p_zero : ℚ := 1 - p_one
  if p_one = 0 ∨ p_zero = 0 then 0
  else -((p_one : ℝ) * Real.log (p_one : ℝ)
         + (p_zero : ℝ) * Real.log (p_zero : ℝ))

/-- One directional term of Field.sticky_rate (source lines 136-148): the sum
over all cells of (convolve2d(cells, K) - cells) ** 2, computed elementwise
in uint8 (hence the mod 256 of the squared difference; elementwise uint8
wrapping of the subtraction and the square commutes with a single final
emod), accumulated exactly (numpy sums uint8 into the platform integer). -/
def diffSqSum (H Wd : ℕ) (K : Matrix (Fin 3) (Fin 3) ℕ) (g : ℕ → ℕ → ℕ) : ℤ :=
  ∑ r ∈ Finset.range H, ∑ c ∈ Finset.range Wd,
    (((conv3 H Wd K g r c : ℤ) - (g r c : ℤ)) ^ 2) % 256

/-- Field.sticky_rate (source lines 136-153): the product
r_n * r_e * r_w * r_s * r_c, each factor a mean over the H·W cells. -/
def Field.sticky_rate (f : Field) : ℚ :=
  let hw : ℚ := (f.height : ℚ) * (f.width : ℚ)
  let r_n : ℚ := (diffSqSum f.height f.width N f.cells : ℚ) / hw
  let r_e : ℚ := (diffSqSum f.height f.width E f.cells : ℚ) / hw
  let r_w : ℚ := (diffSqSum f.height f.width W f.cells : ℚ) / hw
  let r_s : ℚ := (diffSqSum f.height f.width S f.cells : ℚ) / hw
  let r_c : ℚ :=
    ((∑ r ∈ Finset.range f.height, ∑ c ∈ Finset.range f.width,
        if f.prev_cells r c = f.cells r c then (1 : ℕ) else 0 : ℕ) : ℚ) / hw
  r_n * r_e * r_w * r_s * r_c

/-- Binary grid: every in-range cell of the current snapshot is 0 or 1.
This is the data-model invariant of the specification (values in \x7b0,1\x7d). -/
def Binary (f : Field) : Prop :=
  ∀ r c, r < f.height → c < f.width → f.cells r c ≤ 1

/-- North neighbour value in the words of the specification §3:
the value at ((row - 1) mod H, col), written in ℕ as (row + H - 1) mod H. -/
def specNorth (H : ℕ) (g : ℕ → ℕ → ℕ) (r c : ℕ) : ℕ := g ((r + H - 1) % H) c

/-- South neighbour value in the words of the specification §3:
the value at ((row + 1) mod H, col). -/
def specSouth (H : ℕ) (g : ℕ → ℕ → ℕ) (r c : ℕ) : ℕ := g ((r + 1) % H) c

/-- East neighbour value in the words of the specification §3:
the value at (row, (col + 1) mod W). -/
def specEast (Wd : ℕ) (g : ℕ → ℕ → ℕ) (r c : ℕ) : ℕ := g r ((c + 1) % Wd)

/-- West neighbour value in the words of the specification §3:
the value at (row, (col - 1) mod W), written in ℕ as (col + W - 1) mod W. -/
def specWest (Wd : ℕ) (g : ℕ → ℕ → ℕ) (r c : ℕ) : ℕ := g r ((c + Wd - 1) % Wd)

/-- Neighbourhood index in the words of the specification §3:
index = (North<<0) | (East<<1) | (South<<2) | (West<<3) | (Center<<4),
with the directional neighbour map of the specification. -/
def specIndex (f : Field) (r c : ℕ) : ℕ :=
  specNorth f.height f.cells r c
    ||| (specEast f.width f.cells r c <<< 1)
    ||| (specSouth f.height f.cells r c <<< 2)
    ||| (specWest f.width f.cells r c <<< 3)
    ||| (f.cells r c <<< 4)

/-- Neighbourhood index the code actually computes, expressed with the
specification's directional neighbour map: relative to specIndex, the
North/South weights and the East/West weights are exchanged, because
convolve2d flips each kernel. -/
def mirrorIndex (f : Field) (r c : ℕ) : ℕ :=
  specSouth f.height f.cells r c
    ||| (specWest f.width f.cells r c <<< 1)
    ||| (specNorth f.height f.cells r c <<< 2)
    ||| (specEast f.width f.cells r c <<< 3)
    ||| (f.cells r c <<< 4)

lemma conv3_N_eq (H Wd : ℕ) (g : ℕ → ℕ → ℕ) (r c : ℕ) :
    conv3 H Wd N g r c = g ((r + 1) % H) (c % Wd) := by
  have h2 : (c + Wd + 1 - 1) % Wd = c % Wd := by
    rw [show c + Wd + 1 - 1 = c + Wd by omega, Nat.add_mod_right]
  simp only [conv3, N, Fin.sum_univ_three]
  norm_num [Matrix.cons_val_zero, Matrix.cons_val_one, Matrix.cons_val_two,
    Matrix.head_cons, Matrix.vecTail, Matrix.vecHead, h2]
  rw [show r + H + 1 = r + 1 + H by ring, Nat.add_mod_right]

lemma conv3_E_eq (H Wd : ℕ) (g : ℕ → ℕ → ℕ) (r c : ℕ) :
    conv3 H Wd E g r c = g (r % H) ((c + Wd - 1) % Wd) := by
  have h1 : (r + H + 1 - 1) % H = r % H := by
    rw [show r + H + 1 - 1 = r + H by omega, Nat.add_mod_right]
  have h2 : (c + Wd + 1 - 2) % Wd = (c + Wd - 1) % Wd := by
    rw [show c + Wd + 1 - 2 = c + Wd - 1 by omega]
  simp only [conv3, E, Fin.sum_univ_three]
  norm_num [Matrix.cons_val_zero, Matrix.cons_val_one, Matrix.cons_val_two,
    Matrix.head_cons, Matrix.vecTail, Matrix.vecHead, h1, h2]

lemma conv3_W_eq (H Wd : ℕ) (g : ℕ → ℕ → ℕ) (r c : ℕ) :
    conv3 H Wd W g r c = g (r % H) ((c + 1) % Wd) := by
  have h1 : (r + H + 1 - 1) % H = r % H := by
    rw [show r + H + 1 - 1 = r + H by omega, Nat.add_mod_right]
  have h2 : (c + Wd + 1) % Wd = (c + 1) % Wd := by
    rw [show c + Wd + 1 = c + 1 + Wd by omega, Nat.add_mod_right]
  simp only [conv3, W, Fin.sum_univ_three]
  norm_num [Matrix.cons_val_zero, Matrix.cons_val_one, Matrix.cons_val_two,
    Matrix.head_cons, Matrix.vecTail, Matrix.vecHead, h1, h2]

lemma conv3_S_eq (H Wd : ℕ) (g : ℕ → ℕ → ℕ) (r c : ℕ) :
    conv3 H Wd S g r c = g ((r + H - 1) % H) (c % Wd) := by
  have h1 : (r + H + 1 - 2) % H = (r + H - 1) % H := by
    rw [show r + H + 1 - 2 = r + H - 1 by omega]
  have h2 : (c + Wd + 1 - 1) % Wd = c % Wd := by
    rw [show c + Wd + 1 - 1 = c + Wd by omega, Nat.add_mod_right]
  simp only [conv3, S, Fin.sum_univ_three]
  norm_num [Matrix.cons_val_zero, Matrix.cons_val_one, Matrix.cons_val_two,
    Matrix.head_cons, Matrix.vecTail, Matrix.vecHead, h1, h2]

/-- The sum of disjointly shifted binary digits, in the accumulation order of
update_cells, equals the bitwise-or form of the index. -/
lemma index_shift_lor (n e s w c : ℕ) (hn : n ≤ 1) (he : e ≤ 1) (hs : s ≤ 1)
    (hw : w ≤ 1) (hc : c ≤ 1) :
    (c <<< 4) + (n <<< 0) + (e <<< 1) + (w <<< 3) + (s <<< 2)
      = n ||| (e <<< 1) ||| (s <<< 2) ||| (w <<< 3) ||| (c <<< 4) := by
  interval_cases n <;> interval_cases e <;> interval_cases s <;>
    interval_cases w <;> interval_cases c <;> decide

/-- Selecting on a nonzero single-bit mask equals extracting the rule bit. -/
lemma lookup_bit (k rule : ℕ) (hk : k < 32) :
    (if (1 <<< k) % 2 ^ 32 &&& rule ≠ 0 then (1 : ℕ) else 0)
      = (rule >>> k) &&& 1 := by
  have h1 : (1 <<< k) % 2 ^ 32 = 2 ^ k := by
    rw [Nat.one_shiftLeft]
    exact Nat.mod_eq_of_lt (Nat.pow_lt_pow_right (by norm_num) hk)
  rw [h1, Nat.two_pow_and, Nat.shiftRight_eq_div_pow, Nat.and_one_is_mod]
  by_cases h : rule / 2 ^ k % 2 = 1
  · have ht : rule.testBit k = true := by
      simp [Nat.testBit_to_div_mod, h]
    simp [ht, h, pow_ne_zero]
  · have ht : rule.testBit k = false := by
      simp [Nat.testBit_to_div_mod, h]
    have h0 : rule / 2 ^ k % 2 = 0 := by omega
    simp [ht, h0]

/-- Core computation of update_cells on a binary grid: the new value of an
in-range cell is the rule bit selected by mirrorIndex. -/
lemma update_cells_cells_eq (f : Field) (hbin : Binary f) (r c : ℕ)
    (hr : r < f.height) (hc : c < f.width) :
    (Field.update_cells f).cells r c = (f.rule >>> mirrorIndex f r c) &&& 1 := by
  have hH : 0 < f.height := lt_of_le_of_lt (Nat.zero_le r) hr
  have hW : 0 < f.width := lt_of_le_of_lt (Nat.zero_le c) hc
  have hra : (r + 1) % f.height < f.height := Nat.mod_lt _ hH
  have hca : (c + 1) % f.width < f.width := Nat.mod_lt _ hW
  have hrb : (r + f.height - 1) % f.height < f.height := Nat.mod_lt _ hH
  have hcb : (c + f.width - 1) % f.width < f.width := Nat.mod_lt _ hW
  have hA : f.cells ((r + 1) % f.height) c ≤ 1 := hbin _ _ hra hc
  have hB : f.cells r ((c + f.width - 1) % f.width) ≤ 1 := hbin _ _ hr hcb
  have hC : f.cells r ((c + 1) % f.width) ≤ 1 := hbin _ _ hr hca
  have hD : f.cells ((r + f.height - 1) % f.height) c ≤ 1 := hbin _ _ hrb hc
  have hE : f.cells r c ≤ 1 := hbin _ _ hr hc
  have hsum := index_shift_lor (f.cells ((r + 1) % f.height) c)
    (f.cells r ((c + f.width - 1) % f.width))
    (f.cells ((r + f.height - 1) % f.height) c)
    (f.cells r ((c + 1) % f.width)) (f.cells r c) hA hB hD hC hE
  have hlt : (f.cells r c <<< 4) + (f.cells ((r + 1) % f.height) c <<< 0)
      + (f.cells r ((c + f.width - 1) % f.width) <<< 1)
      + (f.cells r ((c + 1) % f.width) <<< 3)
      + (f.cells ((r + f.height - 1) % f.height) c <<< 2) < 32 := by
    simp only [Nat.shiftLeft_eq]
    norm_num
    omega
  have hmirror : mirrorIndex f r c
      = (f.cells r c <<< 4) + (f.cells ((r + 1) % f.height) c <<< 0)
        + (f.cells r ((c + f.width - 1) % f.width) <<< 1)
        + (f.cells r ((c + 1) % f.width) <<< 3)
        + (f.cells ((r + f.height - 1) % f.height) c <<< 2) := by
    rw [hsum]
    simp only [mirrorIndex, specSouth, specWest, specNorth, specEast]
  simp only [Field.update_cells, REG_N, REG_E, REG_S, REG_W, REG_C,
    conv3_N_eq, conv3_E_eq, conv3_W_eq, conv3_S_eq,
    Nat.mod_eq_of_lt hr, Nat.mod_eq_of_lt hc]
  have hm32 : mirrorIndex f r c < 32 := by rw [hmirror]; exact hlt
  rw [← hmirror,
    Nat.mod_eq_of_lt (show mirrorIndex f r c < 2 ^ 16 by
      exact lt_trans hm32 (by norm_num))]
  exact lookup_bit _ _ hm32

/-- Bound on the index computed by update_cells over a binary grid. -/
lemma mirrorIndex_lt_32 (f : Field) (hbin : Binary f) (r c : ℕ)
    (hr : r < f.height) (hc : c < f.width) : mirrorIndex f r c < 32 := by
  have hH : 0 < f.height := lt_of_le_of_lt (Nat.zero_le r) hr
  have hW : 0 < f.width := lt_of_le_of_lt (Nat.zero_le c) hc
  have hA : specSouth f.height f.cells r c ≤ 1 := hbin _ _ (Nat.mod_lt _ hH) hc
  have hB : specWest f.width f.cells r c ≤ 1 := hbin _ _ hr (Nat.mod_lt _ hW)
  have hC : specNorth f.height f.cells r c ≤ 1 := hbin _ _ (Nat.mod_lt _ hH) hc
  have hD : specEast f.width f.cells r c ≤ 1 := hbin _ _ hr (Nat.mod_lt _ hW)
  have hE : f.cells r c ≤ 1 := hbin _ _ hr hc
  have h5 : mirrorIndex f r c < 2 ^ 5 := by
    unfold mirrorIndex
    apply Nat.or_lt_two_pow
    · apply Nat.or_lt_two_pow
      · apply Nat.or_lt_two_pow
        · apply Nat.or_lt_two_pow
          · simp only [Nat.shiftLeft_eq] at *
            omega
          · simp only [Nat.shiftLeft_eq] at *
            norm_num
            omega
        · simp only [Nat.shiftLeft_eq] at *
          norm_num
          omega
      · simp only [Nat.shiftLeft_eq] at *
        norm_num
        omega
    · simp only [Nat.shiftLeft_eq] at *
      norm_num
      omega
  simpa using h5

/-- Claim C1 (amended): one call to update_cells sets the new current value of
every in-range cell (r,c) of a binary grid to (rule >> index) & 1, with all
five bits read from the single pre-step snapshot, but with the index bit
weights mirrored relative to the claimed formula: in the specification's
directional neighbour map, index = (South<<0) | (West<<1) | (North<<2) |
(East<<3) | (Center<<4), because convolve2d flips each kernel.  No cell's
update observes another cell's already-updated value: the new cells function
reads only the pre-step f.cells. -/
theorem update_cells_rule_lookup (f : Field) (hbin : Binary f) (r c : ℕ)
    (hr : r < f.height) (hc : c < f.width) :
    (Field.update_cells f).cells r c = (f.rule >>> mirrorIndex f r c) &&& 1 :=
  update_cells_cells_eq f hbin r c hr hc

/-- Grid for the C1 counterexample and witness: 3×3, rule 16 = bit 4 only,
single live cell at (1,0). -/
def fC1 : Field :=
  ⟨3, 3, 16, fun r c => if r = 1 ∧ c = 0 then 1 else 0, fun _ _ => 0⟩

lemma fC1_binary : Binary fC1 := by
  intro r c hr hc
  show (if r = 1 ∧ c = 0 then (1 : ℕ) else 0) ≤ 1
  split <;> norm_num

/-- Claim C1 counterexample: on fC1, the claimed spec index at cell (0,0) is
4 (its South neighbour (1,0) is live), so the claim predicts new value
(16 >> 4) & 1 = 1; the code computes 0 there. -/
theorem update_cells_ne_spec_index :
    (Field.update_cells fC1).cells 0 0 = 0 ∧
    (fC1.rule >>> specIndex fC1 0 0) &&& 1 = 1 := by
  decide

/-- Witness for update_cells_rule_lookup at the concrete grid fC1. -/
theorem update_cells_rule_lookup_witness :
    (Field.update_cells fC1).cells 0 0 = (fC1.rule >>> mirrorIndex fC1 0 0) &&& 1 :=
  update_cells_rule_lookup fC1 fC1_binary 0 0 (by decide) (by decide)

/-- Claim C2 (amended): the four directional aggregates update_cells computes
are mirrored relative to the claim: the N-labelled aggregate at (row,col)
holds the value at ((row+1) mod H, col), the E-labelled one the value at
(row, (col-1) mod W), the W-labelled one the value at (row, (col+1) mod W),
and the S-labelled one the value at ((row-1) mod H, col), with toroidal
wraparound; in particular, on a 3×3 grid whose only live cell is (0,0), it
is the W-labelled aggregate at (0,2) that equals the value at (0,0). -/
theorem neighbor_aggregates_mirrored (f : Field) (r c : ℕ)
    (hr : r < f.height) (hc : c < f.width) :
    conv3 f.height f.width N f.cells r c = f.cells ((r + 1) % f.height) c ∧
    conv3 f.height f.width E f.cells r c = f.cells r ((c + f.width - 1) % f.width) ∧
    conv3 f.height f.width W f.cells r c = f.cells r ((c + 1) % f.width) ∧
    conv3 f.height f.width S f.cells r c = f.cells ((r + f.height - 1) % f.height) c := by
  refine ⟨?_, ?_, ?_, ?_⟩
  · rw [conv3_N_eq, Nat.mod_eq_of_lt hc]
  · rw [conv3_E_eq, Nat.mod_eq_of_lt hr]
  · rw [conv3_W_eq, Nat.mod_eq_of_lt hr]
  · rw [conv3_S_eq, Nat.mod_eq_of_lt hc]

/-- Grid for the C2 counterexample and witness: 3×3, only cell (0,0) live. -/
def fC2 : Field :=
  ⟨3, 3, 0, fun r c => if r = 0 ∧ c = 0 then 1 else 0, fun _ _ => 0⟩

/-- Claim C2 counterexample: on fC2 the E-labelled aggregate computed for
cell (0,2) is 0, not the value 1 at the wrapped East neighbour (0,0). -/
theorem east_aggregate_misses_wrap :
    conv3 fC2.height fC2.width E fC2.cells 0 2 = 0 ∧ fC2.cells 0 0 = 1 := by
  decide

/-- Witness for neighbor_aggregates_mirrored at fC2, cell (0,2): the third
conjunct retrieves the wrapped value at (0, (2+1) mod 3) = (0,0). -/
theorem neighbor_aggregates_mirrored_witness :
    conv3 fC2.height fC2.width N fC2.cells 0 2 = fC2.cells ((0 + 1) % fC2.height) 2 ∧
    conv3 fC2.height fC2.width E fC2.cells 0 2 = fC2.cells 0 ((2 + fC2.width - 1) % fC2.width) ∧
    conv3 fC2.height fC2.width W fC2.cells 0 2 = fC2.cells 0 ((2 + 1) % fC2.width) ∧
    conv3 fC2.height fC2.width S fC2.cells 0 2 = fC2.cells ((0 + fC2.height - 1) % fC2.height) 2 :=
  neighbor_aggregates_mirrored fC2 0 2 (by decide) (by decide)

/-- Claim C3: for every binary grid, one update with rule 0 makes every cell
0, and one update with rule 0xFFFFFFFF makes every cell 1. -/
theorem rule_boundary (f : Field) (hbin : Binary f) (r c : ℕ)
    (hr : r < f.height) (hc : c < f.width) :
    (Field.update_cells { f with rule := 0 }).cells r c = 0 ∧
    (Field.update_cells { f with rule := 2 ^ 32 - 1 }).cells r c = 1 := by
  constructor
  · simp [Field.update_cells]
  · have hbin' : Binary { f with rule := 2 ^ 32 - 1 } := hbin
    rw [update_cells_cells_eq { f with rule := 2 ^ 32 - 1 } hbin' r c hr hc]
    have hk : mirrorIndex { f with rule := 2 ^ 32 - 1 } r c < 32 :=
      mirrorIndex_lt_32 _ hbin' r c hr hc
    rw [Nat.and_one_is_mod, Nat.shiftRight_eq_div_pow]
    have ht : (2 ^ 32 - 1 : ℕ).testBit
        (mirrorIndex { f with rule := 2 ^ 32 - 1 } r c) = true := by
      rw [Nat.testBit_two_pow_sub_one]
      simpa using hk
    rw [Nat.testBit_to_div_mod] at ht
    simpa using ht

/-- One stickiness factor in the words of the specification §4.5: the mean
over all W×H cells of (neighbour_D(current) − current)², for the directional
neighbour field nb. -/
def specStickyFactor (H Wd : ℕ) (g nb : ℕ → ℕ → ℕ) : ℚ :=
  (∑ r ∈ Finset.range H, ∑ c ∈ Finset.range Wd,
      ((nb r c : ℚ) - (g r c : ℚ)) ^ 2) / ((H : ℚ) * (Wd : ℚ))

/-- Temporal stickiness factor in the words of the specification §4.5:
the fraction of cells where current equals previous. -/
def specCenterFrac (f : Field) : ℚ :=
  ((∑ r ∈ Finset.range f.height, ∑ c ∈ Finset.range f.width,
      if f.prev_cells r c = f.cells r c then (1 : ℕ) else 0 : ℕ) : ℚ)
    / ((f.height : ℚ) * (f.width : ℚ))

/-- On a binary grid the uint8 squared differences are exact, so a
directional sum of sticky_rate equals the mathematical sum of squared
differences against the neighbour field the kernel actually reads. -/
lemma diffSqSum_eq_int (H Wd : ℕ) (K : Matrix (Fin 3) (Fin 3) ℕ)
    (g nb : ℕ → ℕ → ℕ)
    (hK : ∀ r c, r < H → c < Wd → conv3 H Wd K g r c = nb r c)
    (hg : ∀ r c, r < H → c < Wd → g r c ≤ 1)
    (hnb : ∀ r c, r < H → c < Wd → nb r c ≤ 1) :
    diffSqSum H Wd K g
      = ∑ r ∈ Finset.range H, ∑ c ∈ Finset.range Wd,
          ((nb r c : ℤ) - (g r c : ℤ)) ^ 2 := by
  unfold diffSqSum
  refine Finset.sum_congr rfl fun r hr => Finset.sum_congr rfl fun c hc => ?_
  rw [Finset.mem_range] at hr hc
  rw [hK r c hr hc]
  rcases Nat.le_one_iff_eq_zero_or_eq_one.mp (hnb r c hr hc) with h | h <;>
    rcases Nat.le_one_iff_eq_zero_or_eq_one.mp (hg r c hr hc) with h2 | h2 <;>
      rw [h, h2] <;> decide

/-- Claim C4: sticky_rate returns the product of the four directional mean
squared differences and the fraction of temporally stable cells.  The code's
N-labelled factor is the claim's South factor and so on, but multiplication
is commutative, so the product is exactly the claimed one. -/
theorem sticky_rate_product (f : Field) (hbin : Binary f) :
    Field.sticky_rate f
      = specStickyFactor f.height f.width f.cells (specNorth f.height f.cells)
        * specStickyFactor f.height f.width f.cells (specEast f.width f.cells)
        * specStickyFactor f.height f.width f.cells (specSouth f.height f.cells)
        * specStickyFactor f.height f.width f.cells (specWest f.width f.cells)
        * specCenterFrac f := by
  have hN := diffSqSum_eq_int f.height f.width N f.cells
    (specSouth f.height f.cells)
    (fun r c hr hc => by
      rw [conv3_N_eq, Nat.mod_eq_of_lt hc]; rfl)
    hbin
    (fun r c hr hc =>
      hbin _ _ (Nat.mod_lt _ (lt_of_le_of_lt (Nat.zero_le r) hr)) hc)
  have hE := diffSqSum_eq_int f.height f.width E f.cells
    (specWest f.width f.cells)
    (fun r c hr hc => by
      rw [conv3_E_eq, Nat.mod_eq_of_lt hr]; rfl)
    hbin
    (fun r c hr hc =>
      hbin _ _ hr (Nat.mod_lt _ (lt_of_le_of_lt (Nat.zero_le c) hc)))
  have hW := diffSqSum_eq_int f.height f.width W f.cells
    (specEast f.width f.cells)
    (fun r c hr hc => by
      rw [conv3_W_eq, Nat.mod_eq_of_lt hr]; rfl)
    hbin
    (fun r c hr hc =>
      hbin _ _ hr (Nat.mod_lt _ (lt_of_le_of_lt (Nat.zero_le c) hc)))
  have hS := diffSqSum_eq_int f.height f.width S f.cells
    (specNorth f.height f.cells)
    (fun r c hr hc => by
      rw [conv3_S_eq, Nat.mod_eq_of_lt hc]; rfl)
    hbin
    (fun r c hr hc =>
      hbin _ _ (Nat.mod_lt _ (lt_of_le_of_lt (Nat.zero_le r) hr)) hc)
  simp only [Field.sticky_rate, specStickyFactor, specCenterFrac,
    hN, hE, hW, hS]
  push_cast
  ring

/-- Grid for the C4 witness: 2×2 with one live diagonal, previous all-zero. -/
def fC4 : Field :=
  ⟨2, 2, 9, fun r c => if r = c then 1 else 0, fun _ _ => 0⟩

lemma fC4_binary : Binary fC4 := by
  intro r c hr hc
  show (if r = c then (1 : ℕ) else 0) ≤ 1
  split <;> norm_num

/-- Witness for sticky_rate_product at the concrete grid fC4. -/
theorem sticky_rate_product_witness :
    Field.sticky_rate fC4
      = specStickyFactor fC4.height fC4.width fC4.cells (specNorth fC4.height fC4.cells)
        * specStickyFactor fC4.height fC4.width fC4.cells (specEast fC4.width fC4.cells)
        * specStickyFactor fC4.height fC4.width fC4.cells (specSouth fC4.height fC4.cells)
        * specStickyFactor fC4.height fC4.width fC4.cells (specWest fC4.width fC4.cells)
        * specCenterFrac fC4 :=
  sticky_rate_product fC4 fC4_binary

/-- Grid for the C3 witness: 2×2 checkerboard. -/
def fC3 : Field := ⟨2, 2, 7, fun r c => (r + c) % 2, fun _ _ => 0⟩

/-- Witness for rule_boundary at the concrete grid fC3, cell (0,1). -/
theorem rule_boundary_witness :
    (Field.update_cells { fC3 with rule := 0 }).cells 0 1 = 0 ∧
    (Field.update_cells { fC3 with rule := 2 ^ 32 - 1 }).cells 0 1 = 1 :=
  rule_boundary fC3 (fun r c _ _ => by show (r + c) % 2 ≤ 1; omega)
    0 1 (by decide) (by decide)

/-- All-zero 3×3 grid, previous equal to current: spatially uniform and
temporally frozen. -/
def fC5 : Field := ⟨3, 3, 0, fun _ _ => 0, fun _ _ => 0⟩

/-- Claim C5 counterexample: on the spatially uniform, temporally frozen
grid fC5, sticky_rate returns 0, not the claimed 1 (every directional mean
squared difference vanishes, so the product vanishes). -/
theorem sticky_rate_frozen_uniform_ne_one :
    Field.sticky_rate fC5 = 0 ∧ Field.sticky_rate fC5 ≠ 1 := by
  have hN : diffSqSum fC5.height fC5.width N fC5.cells = 0 := by decide
  constructor <;> simp [Field.sticky_rate, hN]

/-- Claim C5 (amended): for every grid of positive dimensions whose current
value is spatially uniform, sticky_rate returns exactly 0, since each
directional factor is a mean of squared differences and vanishes; in
particular in the end-to-end scenario (3×3 grid, rule 0, one step from
[[1,0,0],[0,0,0],[0,0,0]]) sticky_rate on the resulting all-zero state
returns 0, not 1. -/
theorem sticky_rate_uniform_zero (f : Field) (v : ℕ)
    (hH : 0 < f.height) (hW : 0 < f.width)
    (hu : ∀ r c, r < f.height → c < f.width → f.cells r c = v) :
    Field.sticky_rate f = 0 := by
  have hN : diffSqSum f.height f.width N f.cells = 0 := by
    unfold diffSqSum
    refine Finset.sum_eq_zero fun r hr => Finset.sum_eq_zero fun c hc => ?_
    rw [Finset.mem_range] at hr hc
    rw [conv3_N_eq, Nat.mod_eq_of_lt hc, hu _ _ (Nat.mod_lt _ hH) hc,
      hu r c hr hc]
    simp
  simp [Field.sticky_rate, hN]

/-- Initial grid of the end-to-end scenario: 3×3, rule 0, live cell (0,0). -/
def fC5w : Field :=
  ⟨3, 3, 0, fun r c => if r = 0 ∧ c = 0 then 1 else 0, fun _ _ => 0⟩

/-- Witness for sticky_rate_uniform_zero: the end-to-end scenario state, one
update_cells step after fC5w, is uniformly zero and has sticky_rate 0. -/
theorem sticky_rate_uniform_zero_witness :
    Field.sticky_rate (Field.update_cells fC5w) = 0 :=
  sticky_rate_uniform_zero (Field.update_cells fC5w) 0 (by decide) (by decide)
    (fun r c hr hc => by
      have hr3 : r < 3 := hr
      have hc3 : c < 3 := hc
      interval_cases r <;> interval_cases c <;> decide)

lemma entropyMask_eq_one : ∀ i j : Fin 3, entropyMask i j = 1 := by decide

/-- Claim C6: entropy never raises: the try/except of the source is modelled
by the if branch of the embedding, which returns exactly 0 whenever p1 = 0
or p0 = 1 - p1 = 0; an entirely-0 grid has p1 = 0 and an entirely-1 grid has
p0 = 0, so both have entropy exactly 0. -/
theorem entropy_degenerate (f : Field) (hH : 0 < f.height) (hW : 0 < f.width) :
    ((Field.p_one f = 0 ∨ 1 - Field.p_one f = 0) → Field.entropy f = 0) ∧
    ((∀ r c, r < f.height → c < f.width → f.cells r c = 0) →
      Field.entropy f = 0) ∧
    ((∀ r c, r < f.height → c < f.width → f.cells r c = 1) →
      Field.entropy f = 0) := by
  refine ⟨fun h => ?_, fun hz => ?_, fun ho => ?_⟩
  · simp only [Field.entropy]
    rw [if_pos h]
  · have hp : Field.p_one f = 0 := by
      unfold Field.p_one
      have hsum : (∑ r ∈ Finset.range f.height, ∑ c ∈ Finset.range f.width,
          if conv3 f.height f.width entropyMask f.cells r c % 256 ≠ 0
          then (1 : ℕ) else 0) = 0 := by
        refine Finset.sum_eq_zero fun r hr => Finset.sum_eq_zero fun c hc => ?_
        have hconv : conv3 f.height f.width entropyMask f.cells r c = 0 := by
          unfold conv3
          refine Finset.sum_eq_zero fun i _ => Finset.sum_eq_zero fun j _ => ?_
          rw [hz _ _ (Nat.mod_lt _ hH) (Nat.mod_lt _ hW)]
          simp
        simp [hconv]
      rw [hsum]
      simp
    simp only [Field.entropy]
    rw [if_pos (Or.inl hp)]
  · have hconv : ∀ r c, conv3 f.height f.width entropyMask f.cells r c = 9 := by
      intro r c
      unfold conv3
      have h1 : ∀ i j : Fin 3,
          entropyMask i j *
            f.cells ((r + f.height + 1 - (i : ℕ)) % f.height)
              ((c + f.width + 1 - (j : ℕ)) % f.width) = 1 := by
        intro i j
        rw [ho _ _ (Nat.mod_lt _ hH) (Nat.mod_lt _ hW), entropyMask_eq_one]
      rw [Finset.sum_congr rfl fun i _ =>
        Finset.sum_congr rfl fun j _ => h1 i j]
      decide
    have hp : Field.p_one f = 1 := by
      unfold Field.p_one
      have hsum : (∑ r ∈ Finset.range f.height, ∑ c ∈ Finset.range f.width,
          if conv3 f.height f.width entropyMask f.cells r c % 256 ≠ 0
          then (1 : ℕ) else 0) = f.height * f.width := by
        rw [Finset.sum_congr rfl fun r hr => Finset.sum_congr rfl fun c hc =>
          by rw [hconv r c]]
        simp [Finset.sum_const, Finset.card_range, mul_comm]
      rw [hsum]
      push_cast
      rw [div_self]
      positivity
    simp only [Field.entropy]
    rw [if_pos (Or.inr (by rw [hp]; ring))]

/-- All-one 2×3 grid for the C6 witness. -/
def fC6 : Field := ⟨3, 2, 0, fun _ _ => 1, fun _ _ => 0⟩

/-- Witness for entropy_degenerate: the entirely-1 grid fC6 has entropy 0. -/
theorem entropy_degenerate_witness : Field.entropy fC6 = 0 :=
  (entropy_degenerate fC6 (by decide) (by decide)).2.2 (fun _ _ _ _ => rfl)

/-- Claim C7: previous always equals current from one step ago: at
construction previous is all-zero, init_random leaves it untouched, and
after every update_cells call previous equals the pre-call current. -/
theorem previous_snapshot :
    (∀ w h rule r c, (mkField w h rule).prev_cells r c = 0) ∧
    (∀ (f : Field) (draw : ℕ → ℕ → ℕ),
        (Field.init_random f draw).prev_cells = f.prev_cells) ∧
    (∀ f : Field, (Field.update_cells f).prev_cells = f.cells) :=
  ⟨fun _ _ _ _ _ => rfl, fun _ _ => rfl, fun _ => rfl⟩

/-- Claim C8: apply_central_mask zeroes every in-range cell outside rows
[H/3, H*2/3) × cols [W/3, W*2/3) and keeps every cell inside unchanged. -/
theorem central_mask (f : Field) (r c : ℕ)
    (hr : r < f.height) (hc : c < f.width) :
    (¬(f.height / 3 ≤ r ∧ r < f.height * 2 / 3 ∧
        f.width / 3 ≤ c ∧ c < f.width * 2 / 3) →
      (Field.mask f).cells r c = 0) ∧
    ((f.height / 3 ≤ r ∧ r < f.height * 2 / 3 ∧
        f.width / 3 ≤ c ∧ c < f.width * 2 / 3) →
      (Field.mask f).cells r c = f.cells r c) := by
  constructor
  · intro h
    simp [Field.mask, h]
  · intro h
    simp [Field.mask, h]

/-- Arbitrary-valued 9×9 grid for the C8 witness. -/
def fC8 : Field := ⟨9, 9, 0, fun r c => r + 10 * c, fun _ _ => 0⟩

/-- Witness for central_mask on the 9×9 grid fC8: cell (0,8) is outside
rows/cols [3,6) and is zeroed; cell (3,4) is inside and keeps its value. -/
theorem central_mask_witness :
    (Field.mask fC8).cells 0 8 = 0 ∧
    (Field.mask fC8).cells 3 4 = fC8.cells 3 4 :=
  ⟨(central_mask fC8 0 8 (by decide) (by decide)).1 (by decide),
   (central_mask fC8 3 4 (by decide) (by decide)).2 (by decide)⟩

/-- Claim C9 counterexample: construction with width = 0 (a non-positive
width) does not fail: cupy.zeros accepts zero-sized dimensions, so
Field.init returns a Field with an empty grid. -/
theorem init_zero_width_succeeds : Field.init 0 3 5 = some (mkField 0 3 5) :=
  rfl

/-- Claim C9 (amended): construction fails (ValueError from the array
allocation) exactly for a negative width or height; width 0 or height 0 is
accepted and yields a usable object with an empty grid. -/
theorem init_fails_iff_negative (w h : ℤ) (rule : ℕ) :
    Field.init w h rule = none ↔ w < 0 ∨ h < 0 := by
  by_cases h' : w < 0 ∨ h < 0 <;> simp [Field.init, h']

/-- Claim C10: the simulation is deterministic: two runs that start from the
same state and each apply update_cells at every step agree on the full state
(current and previous grids) after every step. -/
theorem determinism (s1 s2 : ℕ → Field) (h0 : s1 0 = s2 0)
    (h1 : ∀ k, s1 (k + 1) = Field.update_cells (s1 k))
    (h2 : ∀ k, s2 (k + 1) = Field.update_cells (s2 k)) :
    ∀ n, (s1 n).cells = (s2 n).cells ∧
      (s1 n).prev_cells = (s2 n).prev_cells := by
  have heq : ∀ n, s1 n = s2 n := by
    intro n
    induction n with
    | zero => exact h0
    | succ k ih => rw [h1 k, h2 k, ih]
  exact fun n => ⟨by rw [heq n], by rw [heq n]⟩

/-- Concrete run for the C10 witness: iterated update_cells from a 2×2 grid. -/
def runC10 : ℕ → Field := fun n => Field.update_cells^[n] (mkField 2 2 5)

/-- Witness for determinism, instantiating both runs with runC10. -/
theorem determinism_witness :
    (runC10 3).cells = (runC10 3).cells ∧
    (runC10 3).prev_cells = (runC10 3).prev_cells :=
  determinism runC10 runC10 rfl
    (fun k => Function.iterate_succ_apply' Field.update_cells k _)
    (fun k => Function.iterate_succ_apply' Field.update_cells k _) 3

end Cell2d
